import Mathlib

/-!
Verification development for the `logger` repository (TypeScript).

The repository contains three variants of a method-logging decorator:
`index.ts`, `logger.ts` and `dlogger.ts`.  Each exports a `Log` decorator
that wraps a method, logs its arguments (optionally projected to a list of
dotted property paths), invokes the original method, and logs its outcome,
plus a `Logger` class that appends formatted lines to a daily file.

This file gives a shallow embedding of:
  * JavaScript values (`JSVal`) as far as the code manipulates them;
  * the recursive dotted-path field projector `filterObject`
    (identical in `dlogger.ts` and `logger.ts`; the code in `logger.ts`
    after its first `return` statement is unreachable and hence not
    modelled);
  * the `Log` wrapper of each variant, as a pure function from the
    original callable's behaviour to the emitted log entries and the
    outcome delivered to the caller;
  * the sink behaviour difference: `dlogger.ts` appends with
    `fs.appendFileSync` (a write error propagates as an exception),
    while `index.ts` appends with `fs.appendFile(path, data, () => {})`
    (a write error is passed to the ignored callback and lost).

JavaScript errors are modelled by their message string (`Error.message`
is the only error field the source reads).  A thrown `TypeError` arising
inside the wrapper machinery itself (property access on `null`) is
modelled as `Except.error`.
-/

/-- JavaScript values, as far as the source manipulates them.
`vpromise` stands for a (pending) Promise object: `index.ts` passes a
promise returned by the original method directly to `Logger.log`. -/
inductive JSVal where
  | vundefined : JSVal
  | vnull : JSVal
  | vbool : Bool → JSVal
  | vnum : Int → JSVal
  | vstr : String → JSVal
  | vobj : List (String × JSVal) → JSVal
  | varr : List JSVal → JSVal
  | vpromise : JSVal

/-- `typeof v == "object"` — true for plain objects, arrays, promises and
(famously) `null`. -/
def typeofIsObject : JSVal → Bool
  | .vnull => true
  | .vobj _ => true
  | .varr _ => true
  | .vpromise => true
  | _ => false

/-- JavaScript truthiness test, used by the `if (!a) return a` guard in
`index.ts`.  (`NaN` does not arise: numbers are modelled as integers.) -/
def isFalsy : JSVal → Bool
  | .vnull => true
  | .vundefined => true
  | .vbool b => !b
  | .vnum n => n == 0
  | .vstr s => s == ""
  | _ => false

/-- Property read `obj[k]` on a value that is not `null`/`undefined`.
Objects use first-match lookup, arrays use numeric-string indices,
other primitives have no own properties here. -/
def jsGet : JSVal → String → JSVal
  | .vobj fs, k => ((fs.lookup k).getD .vundefined)
  | .varr xs, k =>
    match k.toNat? with
    | some i => xs.getD i .vundefined
    | none => .vundefined
  | _, _ => .vundefined

/-- Property read `obj[k]` as the source performs it: reading a property
of `null` or `undefined` throws a `TypeError`. -/
def jsGetChecked : JSVal → String → Except Unit JSVal
  | .vnull, _ => .error ()
  | .vundefined, _ => .error ()
  | obj, k => .ok (jsGet obj k)

/-- Read `r[key]` on the accumulator object of the `reduce` in
`filterObject` (always a real object, never throws). -/
def jsGetField : List (String × JSVal) → String → JSVal
  | [], _ => .vundefined
  | (a, v) :: r, k => if a == k then v else jsGetField r k

/-- Property assignment `r[key] = v`: an existing key keeps its position
and gets the new value, a fresh key is appended. -/
def setField : List (String × JSVal) → String → JSVal → List (String × JSVal)
  | [], k, v => [(k, v)]
  | (a, w) :: r, k, v => if a == k then (k, v) :: r else (a, w) :: setField r k v

/-- Object spread `{ ...fields, ...v }`: spreading an object merges its
fields in order; spreading an array or string contributes index-keyed
entries; spreading `undefined`, `null`, numbers, booleans or a promise
contributes nothing. -/
def spreadInto (fields : List (String × JSVal)) (v : JSVal) : List (String × JSVal) :=
  match v with
  | .vobj fs => fs.foldl (fun acc kv => setField acc kv.1 kv.2) fields
  | .varr xs => xs.enum.foldl (fun acc iv => setField acc (toString iv.1) iv.2) fields
  | .vstr s => s.toList.enum.foldl (fun acc ic => setField acc (toString ic.1) (.vstr (String.singleton ic.2))) fields
  | _ => fields

/-- `k.split(".")` for the single-character separator, as in the source.
Never returns the empty list. -/
def splitDotsAux : List Char → List Char → List String
  | acc, [] => [String.mk acc.reverse]
  | acc, c :: cs => if c = '.' then String.mk acc.reverse :: splitDotsAux [] cs else splitDotsAux (c :: acc) cs

/-- `k.split(".")` on a Lean string. -/
def splitDots (s : String) : List String :=
  splitDotsAux [] s.toList

/-- `rest.join(".")`, as in the source. -/
def joinDots : List String → String
  | [] => ""
  | [s] => s
  | s :: rest => s ++ "." ++ joinDots rest

/-- A dotted path split into its first segment and remaining segments:
`const [key, ...rest] = k.split(".")`.  `split` never yields an empty
list, so the first component always exists. -/
def splitPath (s : String) : String × List String :=
  match splitDots s with
  | [] => ("", [])
  | k :: rest => (k, rest)

/-- First dotted segment of a path. -/
def pathHead (s : String) : String :=
  (splitPath s).1

/-- The recursive call of `filterObject` always receives a singleton path
list (`filterObject(obj[key], [nested])`), so the recursion specialises to
one path; this is that specialisation, structurally recursive on the
remaining segments.  `filterObject_singleton` below proves it agrees with
the general function on singleton lists. -/
def filterOne (obj : JSVal) (key : String) (rest : List String) : Except Unit JSVal :=
  if typeofIsObject obj then
    match rest with
    | r0 :: rtail =>
      if joinDots (r0 :: rtail) ≠ "" then
        match jsGetChecked obj key with
        | .error e => .error e
        | .ok sub =>
          match filterOne sub r0 rtail with
          | .error e => .error e
          | .ok fsub => .ok (.vobj [(key, .vobj (spreadInto (spreadInto [] .vundefined) fsub))])
      else
        match jsGetChecked obj key with
        | .error e => .error e
        | .ok v => .ok (.vobj [(key, v)])
    | [] =>
      match jsGetChecked obj key with
      | .error e => .error e
      | .ok v => .ok (.vobj [(key, v)])
  else .ok obj

/-- The `propertyKeys.reduce` of `filterObject`, over pre-split paths
`(key, rest)`.  Each step either assigns `r[key] = obj[key]` (terminal
path) or `r[key] = { ...r[key], ...filterObject(obj[key], [nested]) }`
(nested path).  A `TypeError` (reading a property of `null`) aborts the
whole computation, as an exception does in JavaScript. -/
def filterFold (obj : JSVal) : List (String × JSVal) → List (String × List String) → Except Unit (List (String × JSVal))
  | r, [] => .ok r
  | r, (key, rest) :: ks =>
    match rest with
    | r0 :: rtail =>
      if joinDots (r0 :: rtail) ≠ "" then
        match jsGetChecked obj key with
        | .error e => .error e
        | .ok sub =>
          match filterOne sub r0 rtail with
          | .error e => .error e
          | .ok fsub =>
            filterFold obj (setField r key (.vobj (spreadInto (spreadInto [] (jsGetField r key)) fsub))) ks
      else
        match jsGetChecked obj key with
        | .error e => .error e
        | .ok v => filterFold obj (setField r key v) ks
    | [] =>
      match jsGetChecked obj key with
      | .error e => .error e
      | .ok v => filterFold obj (setField r key v) ks

/-- `filterObject(obj, propertyKeys)` over pre-split paths: non-object
inputs (by `typeof`) pass through unchanged, otherwise the paths are
reduced into a fresh object. -/
def filterObject (obj : JSVal) (propertyKeys : List (String × List String)) : Except Unit JSVal :=
  if typeofIsObject obj then
    match filterFold obj [] propertyKeys with
    | .error e => .error e
    | .ok fields => .ok (.vobj fields)
  else .ok obj

/-- `filterObject` on dotted-string paths, splitting each path as the
source's `k.split(".")` does. -/
def filterObjectS (obj : JSVal) (propertyKeys : List String) : Except Unit JSVal :=
  filterObject obj (propertyKeys.map splitPath)

/-- Top-level keys of a value (empty for non-objects). -/
def topKeys : JSVal → List String
  | .vobj fs => fs.map Prod.fst
  | _ => []

/-- Behaviour of the original callable on a given receiver and argument
list: synchronous return, synchronous throw (of an error with the given
message), or a returned promise that eventually resolves or rejects. -/
inductive CallResult where
  | ret : JSVal → CallResult
  | thrown : String → CallResult
  | promiseOk : JSVal → CallResult
  | promiseErr : String → CallResult

/-- Ways the wrapper machinery itself fails before delivering the
original callable's outcome: a `TypeError` thrown by `filterObject`
while logging the arguments, or an exception thrown by the synchronous
sink while appending a line. -/
inductive WrapErr where
  | filterCrash : WrapErr
  | sinkCrash : WrapErr
deriving DecidableEq

/-- One log entry: the `pretext` tag passed to `Logger.log` and the
logged value (the sink's timestamping and string formatting are the
excluded line-sink collaborator). -/
abbrev LogEntry := String × JSVal

/-- Observable behaviour of one wrapped call: entries written before the
call returns, entries written later by the promise observers, and the
outcome delivered to the caller. -/
structure WrapOut where
  trace : List LogEntry
  deferred : List LogEntry
  result : Except WrapErr CallResult

/-- Tag of an arguments entry, exactly as the source builds it. -/
def tagArgs (source : String) : String :=
  "(" ++ source ++ ") arguements"

/-- Tag of a return entry. -/
def tagRet (source : String) : String :=
  "(" ++ source ++ ") return"

/-- Tag of an error-message entry. -/
def tagErr (source : String) : String :=
  "(" ++ source ++ ") error message"

/-- The logged argument payload of `dlogger.ts`/`logger.ts`:
`args.map(a => filterObject(a, propertyKeys))` when property keys were
supplied, the raw argument array otherwise.  A `TypeError` raised by
`filterObject` aborts the wrapped call. -/
def argsPayload (propertyKeys : List String) (args : List JSVal) : Except Unit JSVal :=
  if propertyKeys.length > 0 then
    match args.mapM (fun a => filterObjectS a propertyKeys) with
    | .error e => .error e
    | .ok filtered => .ok (.varr filtered)
  else .ok (.varr args)

/-- `Logger.log` of `dlogger.ts`: the line is appended with
`fs.appendFileSync`, so a failing append throws to the caller. -/
def dloggerEmit (appendFails : Bool) (t : List LogEntry) (e : LogEntry) : Except Unit (List LogEntry) :=
  if appendFails then .error () else .ok (t ++ [e])

/-- `Logger.log` of `index.ts`: the line is appended with
`fs.appendFile(path, data, () => {})`; a failing append delivers the
error to the ignored callback, so nothing reaches the caller and the
line is lost. -/
def indexEmit (appendFails : Bool) (t : List LogEntry) (e : LogEntry) : List LogEntry :=
  if appendFails then t else t ++ [e]

/-- The wrapped method body installed by `Log` in `dlogger.ts`:
log the (possibly filtered) arguments, invoke the original with the same
receiver and arguments, attach `then`/`catch` observers through
`Promise.resolve(result)`, return the result unchanged; a synchronous
throw is logged and re-thrown in the `catch` block. -/
def dloggerLog (appendFails : Bool) (source : String) (propertyKeys : List String)
    (thisV : JSVal) (f : JSVal → List JSVal → CallResult) (args : List JSVal) : WrapOut :=
  match argsPayload propertyKeys args with
  | .error _ => ⟨[], [], .error .filterCrash⟩
  | .ok payload =>
    match dloggerEmit appendFails [] (tagArgs source, payload) with
    | .error _ => ⟨[], [], .error .sinkCrash⟩
    | .ok t0 =>
      match f thisV args with
      | .ret v => ⟨t0, [(tagRet source, v)], .ok (.ret v)⟩
      | .thrown m =>
        match dloggerEmit appendFails t0 (tagErr source, .vstr m) with
        | .error _ => ⟨t0, [], .error .sinkCrash⟩
        | .ok t1 => ⟨t1, [], .ok (.thrown m)⟩
      | .promiseOk v => ⟨t0, [(tagRet source, v)], .ok (.promiseOk v)⟩
      | .promiseErr m => ⟨t0, [(tagErr source, .vstr m)], .ok (.promiseErr m)⟩

/-- The wrapped method body installed by `Log` in `logger.ts`:
log the (possibly filtered) arguments, then return
`Promise.resolve(original.apply(this, args)).then(r => { Logger.log(r, ...) })`.
The caller receives the promise derived from the `then` callback, which
resolves to `undefined`; a synchronous throw escapes before any promise
exists; a rejection passes through the `then` unlogged.  (The sink of
`logger.ts` is the fire-and-forget `fs.appendFile`, so no sink failure
reaches the caller and no flag is threaded.) -/
def loggerLog (source : String) (propertyKeys : List String)
    (thisV : JSVal) (f : JSVal → List JSVal → CallResult) (args : List JSVal) : WrapOut :=
  match argsPayload propertyKeys args with
  | .error _ => ⟨[], [], .error .filterCrash⟩
  | .ok payload =>
    match f thisV args with
    | .ret v => ⟨[(tagArgs source, payload)], [(tagRet source, v)], .ok (.promiseOk .vundefined)⟩
    | .thrown m => ⟨[(tagArgs source, payload)], [], .ok (.thrown m)⟩
    | .promiseOk v => ⟨[(tagArgs source, payload)], [(tagRet source, v)], .ok (.promiseOk .vundefined)⟩
    | .promiseErr m => ⟨[(tagArgs source, payload)], [], .ok (.promiseErr m)⟩

/-- The per-argument traversal of `index.ts` for one dotted path:
`if (typeof a != "object") return a; for (const cKey of c.split(".")) { if (!a) return a; a = a[cKey] } return a`. -/
def indexExtractGo : JSVal → List String → JSVal
  | a, [] => a
  | a, k :: rest => if isFalsy a then a else indexExtractGo (jsGet a k) rest

/-- The per-argument traversal of `index.ts`, including its initial
`typeof` check.  It never throws: the falsiness guard runs before every
property read. -/
def indexExtract (a : JSVal) (c : String) : JSVal :=
  if typeofIsObject a then indexExtractGo a (splitDots c) else a

/-- The logged argument payload of `index.ts`: a record keyed by each
full dotted path, holding the array of per-argument traversal results;
or the raw argument array when no property keys were supplied. -/
def indexPayload (propertyKeys : List String) (args : List JSVal) : JSVal :=
  if propertyKeys.length > 0 then
    .vobj (propertyKeys.foldl (fun r c => setField r c (.varr (args.map (fun a => indexExtract a c)))) [])
  else .varr args

/-- The wrapped method body installed by `Log` in `index.ts`:
log the argument payload, invoke the original, log the raw result
(a returned promise is logged as the promise object itself), and return
the result; a synchronous throw escapes before the return entry. -/
def indexLog (appendFails : Bool) (source : String) (propertyKeys : List String)
    (thisV : JSVal) (f : JSVal → List JSVal → CallResult) (args : List JSVal) : WrapOut :=
  let t0 := indexEmit appendFails [] (tagArgs source, indexPayload propertyKeys args)
  match f thisV args with
  | .ret v => ⟨indexEmit appendFails t0 (tagRet source, v), [], .ok (.ret v)⟩
  | .thrown m => ⟨t0, [], .ok (.thrown m)⟩
  | .promiseOk v => ⟨indexEmit appendFails t0 (tagRet source, .vpromise), [], .ok (.promiseOk v)⟩
  | .promiseErr m => ⟨indexEmit appendFails t0 (tagRet source, .vpromise), [], .ok (.promiseErr m)⟩

/-- The key/value pair one path contributes to the `reduce` of
`filterObject` when its top-level key has not been touched before
(`r[key]` is still `undefined`).  Used to characterise `filterFold` on
path lists whose first segments are pairwise distinct. -/
def pathEntry (obj : JSVal) : String × List String → Except Unit (String × JSVal)
  | (key, r0 :: rtail) =>
    if joinDots (r0 :: rtail) ≠ "" then
      match jsGetChecked obj key with
      | .error e => .error e
      | .ok sub =>
        match filterOne sub r0 rtail with
        | .error e => .error e
        | .ok fsub => .ok (key, .vobj (spreadInto (spreadInto [] .vundefined) fsub))
    else
      match jsGetChecked obj key with
      | .error e => .error e
      | .ok v => .ok (key, v)
  | (key, []) =>
    match jsGetChecked obj key with
    | .error e => .error e
    | .ok v => .ok (key, v)

/-- All entries the paths contribute when processed independently;
the first `TypeError` aborts, as in the `reduce`. -/
def pathEntries (obj : JSVal) : List (String × List String) → Except Unit (List (String × JSVal))
  | [] => .ok []
  | p :: ps =>
    match pathEntry obj p with
    | .error e => .error e
    | .ok kv =>
      match pathEntries obj ps with
      | .error e => .error e
      | .ok kvs => .ok (kv :: kvs)

/-- Append a successfully computed entry list to an accumulator,
propagating a failure. -/
def appendEntries (r : List (String × JSVal)) : Except Unit (List (String × JSVal)) → Except Unit (List (String × JSVal))
  | .error e => .error e
  | .ok kvs => .ok (r ++ kvs)

/-- Two fallible entry lists agree up to reordering: both fail, or both
succeed with permuted lists. -/
def ExceptPerm {α : Type} : Except Unit (List α) → Except Unit (List α) → Prop
  | .ok a, .ok b => List.Perm a b
  | .error _, .error _ => True
  | _, _ => False

example : splitDots "a.b" = ["a", "b"] := rfl
example : splitDots "a" = ["a"] := rfl
example : splitDots "" = [""] := rfl
example : splitPath "a.b.c" = ("a", ["b", "c"]) := rfl
example :
    filterObjectS (.vobj [("a", .vobj [("b", .vnum 1), ("c", .vnum 2)]), ("d", .vnum 3)]) ["a.b", "a.c"] =
      .ok (.vobj [("a", .vobj [("b", .vnum 1), ("c", .vnum 2)])]) := rfl
example : filterObjectS .vnull ["a"] = .error () := rfl
example : filterObjectS (.vobj [("a", .vnum 1)]) ["a.b.c"] = .ok (.vobj [("a", .vobj [])]) := rfl
example : filterObjectS (.vobj [("a", .vnum 5)]) ["a", "a.b"] = .ok (.vobj [("a", .vobj [])]) := rfl
example : filterObjectS (.vobj [("a", .vnum 5)]) ["a.b", "a"] = .ok (.vobj [("a", .vnum 5)]) := rfl
example : filterObjectS (.vnum 5) ["x"] = .ok (.vnum 5) := rfl
example : tagArgs "A.m" = "(A.m) arguements" := rfl
example : (loggerLog "A.m" [] .vnull (fun _ _ => .ret (.vnum 5)) []).result = .ok (.promiseOk .vundefined) := rfl
example : (loggerLog "A.m" [] .vnull (fun _ _ => .thrown "boom") []).trace = [("(A.m) arguements", .varr [])] := rfl
example : (dloggerLog true "A.m" [] .vnull (fun _ _ => .ret (.vnum 5)) []).result = .error .sinkCrash := rfl
example :
    (dloggerLog false "A.m" [] .vnull (fun _ _ => .thrown "boom") []).trace =
      [("(A.m) arguements", .varr []), ("(A.m) error message", .vstr "boom")] := rfl
example : (indexLog true "A.m" [] .vnull (fun _ _ => .ret (.vnum 5)) []).result = .ok (.ret (.vnum 5)) := rfl

theorem setField_fresh (k : String) (v : JSVal) :
    ∀ (r : List (String × JSVal)), k ∉ r.map Prod.fst → setField r k v = r ++ [(k, v)] := by
  intro r
  induction r with
  | nil => intro _; rfl
  | cons aw r ih =>
    obtain ⟨a, w⟩ := aw
    intro hk
    simp only [List.map_cons, List.mem_cons] at hk
    push_neg at hk
    have ha : (a == k) = false := by
      simp only [beq_eq_false_iff_ne]
      exact fun h => hk.1 h.symm
    simp [setField, ha, ih hk.2]

theorem jsGetField_fresh (k : String) :
    ∀ (r : List (String × JSVal)), k ∉ r.map Prod.fst → jsGetField r k = .vundefined := by
  intro r
  induction r with
  | nil => intro _; rfl
  | cons aw r ih =>
    obtain ⟨a, w⟩ := aw
    intro hk
    simp only [List.map_cons, List.mem_cons] at hk
    push_neg at hk
    have ha : (a == k) = false := by
      simp only [beq_eq_false_iff_ne]
      exact fun h => hk.1 h.symm
    simp [jsGetField, ha, ih hk.2]

theorem setField_keys_sub (k : String) (v : JSVal) :
    ∀ (r : List (String × JSVal)) (x : String),
      x ∈ (setField r k v).map Prod.fst → x ∈ r.map Prod.fst ∨ x = k := by
  intro r
  induction r with
  | nil =>
    intro x hx
    simp [setField] at hx
    exact Or.inr hx
  | cons aw r ih =>
    obtain ⟨a, w⟩ := aw
    intro x hx
    by_cases ha : (a == k) = true
    · simp [setField, ha] at hx
      rcases hx with hx | hx
      · exact Or.inr hx
      · exact Or.inl (by simp [hx])
    · simp only [Bool.not_eq_true] at ha
      simp only [setField, ha, Bool.false_eq_true, if_false, List.map_cons, List.mem_cons] at hx
      rcases hx with hx | hx
      · exact Or.inl (by simp [hx])
      · rcases ih x hx with h | h
        · exact Or.inl (by simp [h])
        · exact Or.inr h

theorem filterFold_keys (obj : JSVal) :
    ∀ (ps : List (String × List String)) (r fields : List (String × JSVal)),
      filterFold obj r ps = .ok fields →
      ∀ x ∈ fields.map Prod.fst, x ∈ r.map Prod.fst ∨ x ∈ ps.map Prod.fst := by
  intro ps
  induction ps with
  | nil =>
    intro r fields h x hx
    simp only [filterFold, Except.ok.injEq] at h
    subst h
    exact Or.inl hx
  | cons p ks ih =>
    obtain ⟨key, rest⟩ := p
    intro r fields h x hx
    have step : ∀ (v : JSVal), filterFold obj (setField r key v) ks = .ok fields →
        x ∈ r.map Prod.fst ∨ x ∈ ((key, rest) :: ks).map Prod.fst := by
      intro v hv
      rcases ih (setField r key v) fields hv x hx with h1 | h1
      · rcases setField_keys_sub key v r x h1 with h2 | h2
        · exact Or.inl h2
        · exact Or.inr (by simp [h2])
      · exact Or.inr (by simp [h1])
    cases rest with
    | nil =>
      simp only [filterFold] at h
      cases hg : jsGetChecked obj key with
      | error e => simp [hg] at h
      | ok v => simp only [hg] at h; exact step v h
    | cons r0 rtail =>
      simp only [filterFold] at h
      by_cases hj : joinDots (r0 :: rtail) ≠ ""
      · rw [if_pos hj] at h
        cases hg : jsGetChecked obj key with
        | error e => simp [hg] at h
        | ok sub =>
          simp only [hg] at h
          cases hf : filterOne sub r0 rtail with
          | error e => simp [hf] at h
          | ok fsub => simp only [hf] at h; exact step _ h
      · rw [if_neg hj] at h
        cases hg : jsGetChecked obj key with
        | error e => simp [hg] at h
        | ok v => simp only [hg] at h; exact step v h

theorem filterObject_singleton (obj : JSVal) (key : String) (rest : List String) :
    filterObject obj [(key, rest)] = filterOne obj key rest := by
  by_cases ho : typeofIsObject obj
  · cases rest with
    | nil =>
      simp only [filterObject, filterFold, ho, if_true, filterOne]
      cases hg : jsGetChecked obj key <;> simp [hg, filterFold, setField]
    | cons r0 rtail =>
      simp only [filterObject, filterFold, ho, if_true, filterOne]
      by_cases hj : joinDots (r0 :: rtail) ≠ ""
      · rw [if_pos hj, if_pos hj]
        cases hg : jsGetChecked obj key with
        | error e => simp [hg]
        | ok sub =>
          cases hf : filterOne sub r0 rtail with
          | error e => simp [hg, hf]
          | ok fsub => simp [hg, hf, filterFold, setField, jsGetField]
      · rw [if_neg hj, if_neg hj]
        cases hg : jsGetChecked obj key <;> simp [hg, filterFold, setField]
  · simp only [Bool.not_eq_true] at ho
    cases rest <;> simp [filterObject, filterOne, ho]

theorem filterFold_entries (obj : JSVal) :
    ∀ (ps : List (String × List String)) (r : List (String × JSVal)),
      (ps.map Prod.fst).Nodup →
      (∀ k ∈ ps.map Prod.fst, k ∉ r.map Prod.fst) →
      filterFold obj r ps = appendEntries r (pathEntries obj ps) := by
  intro ps
  induction ps with
  | nil => intro r _ _; simp [filterFold, pathEntries, appendEntries]
  | cons p ks ih =>
    obtain ⟨key, rest⟩ := p
    intro r hnd hfresh
    have hkey : key ∉ r.map Prod.fst := hfresh key (by simp)
    simp only [List.map_cons, List.nodup_cons] at hnd
    have cont : ∀ (v : JSVal),
        filterFold obj (setField r key v) ks = appendEntries (setField r key v) (pathEntries obj ks) := by
      intro v
      apply ih (setField r key v) hnd.2
      intro k hk
      rw [setField_fresh key v r hkey]
      simp only [List.map_append, List.mem_append, List.map_cons, List.map_nil, List.mem_cons,
        List.not_mem_nil, or_false, not_or]
      refine ⟨hfresh k (by simp [hk]), ?_⟩
      intro hke
      exact hnd.1 (hke ▸ hk)
    have assemble : ∀ (v : JSVal),
        appendEntries (setField r key v) (pathEntries obj ks) =
          appendEntries r (match pathEntries obj ks with
            | .error e => .error e
            | .ok kvs => .ok ((key, v) :: kvs)) := by
      intro v
      cases hpe : pathEntries obj ks with
      | error e => simp [appendEntries]
      | ok kvs => simp [appendEntries, setField_fresh key v r hkey]
    cases rest with
    | nil =>
      simp only [filterFold, pathEntries, pathEntry]
      cases hg : jsGetChecked obj key with
      | error e => simp [appendEntries]
      | ok v =>
        simp only
        rw [cont v, assemble v]
    | cons r0 rtail =>
      by_cases hj : joinDots (r0 :: rtail) ≠ ""
      · simp only [filterFold, pathEntries, pathEntry, if_pos hj]
        cases hg : jsGetChecked obj key with
        | error e => simp [appendEntries]
        | ok sub =>
          simp only
          cases hf : filterOne sub r0 rtail with
          | error e => simp [appendEntries]
          | ok fsub =>
            simp only
            rw [jsGetField_fresh key r hkey, cont _, assemble _]
      · simp only [filterFold, pathEntries, pathEntry, if_neg hj]
        cases hg : jsGetChecked obj key with
        | error e => simp [appendEntries]
        | ok v =>
          simp only
          rw [cont v, assemble v]

theorem ExceptPerm.trans' {α : Type} {a b c : Except Unit (List α)}
    (h1 : ExceptPerm a b) (h2 : ExceptPerm b c) : ExceptPerm a c := by
  cases a <;> cases b <;> cases c <;> simp_all [ExceptPerm]
  exact h1.trans h2

theorem pathEntries_perm (obj : JSVal) {l₁ l₂ : List (String × List String)}
    (h : List.Perm l₁ l₂) :
    ExceptPerm (pathEntries obj l₁) (pathEntries obj l₂) := by
  induction h with
  | nil => exact List.Perm.refl []
  | @cons x l₁' l₂' hp ih =>
    simp only [pathEntries]
    cases hx : pathEntry obj x with
    | error e => exact trivial
    | ok kv =>
      cases ha : pathEntries obj l₁' with
      | error e1 =>
        cases hb : pathEntries obj l₂' with
        | error e2 => exact trivial
        | ok b => rw [ha, hb] at ih; exact False.elim ih
      | ok a =>
        cases hb : pathEntries obj l₂' with
        | error e2 => rw [ha, hb] at ih; exact False.elim ih
        | ok b => rw [ha, hb] at ih; exact List.Perm.cons kv ih
  | swap x y l =>
    simp only [pathEntries]
    cases hx : pathEntry obj x <;> cases hy : pathEntry obj y <;> try trivial
    cases hl : pathEntries obj l
    · trivial
    · exact List.Perm.swap _ _ _
  | trans h1 h2 ih1 ih2 => exact ih1.trans' ih2

theorem map_fst_splitPath (l : List String) :
    (l.map splitPath).map Prod.fst = l.map pathHead := by
  rw [List.map_map]
  rfl

/-- C1: the transparency claim fails on the code: in the `logger.ts`
variant the wrapped call returns the promise derived from the `then`
callback, so a method that synchronously returns `5` is turned into a
call that returns a promise resolving to `undefined` — the caller never
receives `5`. -/
theorem c1_logger_wrapped_returns_undefined_promise :
    (loggerLog "A.m" [] .vnull (fun _ _ => .ret (.vnum 5)) []).result =
      .ok (.promiseOk .vundefined) := rfl

/-- C2: projecting `{a: {b: 1, c: 2}, d: 3}` through the paths
`["a.b", "a.c"]` yields exactly the merged `{a: {b: 1, c: 2}}`: the
second path's projection is spread into the object already stored at
key `a`, not overwritten. -/
theorem c2_projection_merges_sibling_paths :
    filterObjectS (.vobj [("a", .vobj [("b", .vnum 1), ("c", .vnum 2)]), ("d", .vnum 3)])
        ["a.b", "a.c"] =
      .ok (.vobj [("a", .vobj [("b", .vnum 1), ("c", .vnum 2)])]) := rfl

/-- C3 counterexample: in the `logger.ts` variant a synchronous throw
escapes `Promise.resolve(original.apply(this, args))` before any promise
machinery runs: the failure is re-raised with its message intact, but the
only entry ever emitted is the arguments entry — no entry tagged
`"(A.m) error message"` precedes the re-raise. -/
theorem c3_counterexample_logger_raises_without_logging :
    (loggerLog "A.m" [] .vnull (fun _ _ => .thrown "boom") []).trace =
        [("(A.m) arguements", .varr [])] ∧
    (loggerLog "A.m" [] .vnull (fun _ _ => .thrown "boom") []).deferred = [] ∧
    (loggerLog "A.m" [] .vnull (fun _ _ => .thrown "boom") []).result = .ok (.thrown "boom") ∧
    ("(A.m) arguements" : String) ≠ tagErr "A.m" :=
  ⟨rfl, rfl, rfl, by decide⟩

/-- C3 amended: in the `dlogger.ts` variant, when the original callable
throws synchronously with message `m` (and argument logging succeeded),
the wrapper emits the arguments entry followed by an entry tagged
`"(<source>) error message"` carrying `m`, and re-raises the failure with
the same message. -/
theorem c3_dlogger_sync_failure_logs_then_rethrows
    (source : String) (keys : List String) (thisV : JSVal)
    (f : JSVal → List JSVal → CallResult) (args : List JSVal) (m : String) (p : JSVal)
    (hp : argsPayload keys args = .ok p) (hf : f thisV args = .thrown m) :
    dloggerLog false source keys thisV f args =
      ⟨[(tagArgs source, p), (tagErr source, .vstr m)], [], .ok (.thrown m)⟩ := by
  simp [dloggerLog, hp, hf, dloggerEmit]

theorem c3_dlogger_sync_failure_witness :
    dloggerLog false "A.m" [] .vnull (fun _ _ => .thrown "boom") [] =
      ⟨[(tagArgs "A.m", .varr []), (tagErr "A.m", .vstr "boom")], [], .ok (.thrown "boom")⟩ :=
  c3_dlogger_sync_failure_logs_then_rethrows "A.m" [] .vnull (fun _ _ => .thrown "boom") []
    "boom" (.varr []) rfl rfl

/-- C4: the claim (and the spec's edge-case requirement) that a `null`
argument passes through projection unharmed is violated by the code:
`typeof null == "object"`, so `null` enters the reduce, and the first
property read `obj[key]` throws a `TypeError`. -/
theorem c4_filter_crashes_on_null :
    filterObjectS .vnull ["a"] = .error () := rfl

/-- C5 counterexample: `project({a: 1}, ["a.b.c"])` stores the empty
object `{}` at key `a` — not `undefined` and not the original value `1`.
The inner traversal does return `1` as-is, but the spread
`{ ...r[key], ...1 }` of a non-object contributes no properties. -/
theorem c5_counterexample_missing_path_yields_empty_object :
    filterObjectS (.vobj [("a", .vnum 1)]) ["a.b.c"] = .ok (.vobj [("a", .vobj [])]) ∧
    (JSVal.vobj [] ≠ .vundefined) ∧ (JSVal.vobj [] ≠ .vnum 1) :=
  ⟨rfl, fun h => JSVal.noConfusion h, fun h => JSVal.noConfusion h⟩

/-- C5 amended: projection never raises on a missing path: a traversed
value that is not object-typed is returned as-is by the recursive call
(first conjunct), and for `project({a: 1}, ["a.b.c"])` the spread of that
non-object result stores the empty object `{}` at key `a` (second
conjunct). -/
theorem c5_nonobject_passthrough_and_empty_result :
    (∀ (obj : JSVal) (paths : List String),
        typeofIsObject obj = false → filterObjectS obj paths = .ok obj) ∧
    filterObjectS (.vobj [("a", .vnum 1)]) ["a.b.c"] = .ok (.vobj [("a", .vobj [])]) := by
  constructor
  · intro obj paths h
    simp [filterObjectS, filterObject, h]
  · rfl

theorem c5_nonobject_passthrough_witness : filterObjectS (.vnum 7) ["x"] = .ok (.vnum 7) :=
  c5_nonobject_passthrough_and_empty_result.1 (.vnum 7) ["x"] rfl

/-- C6 counterexample: path order is not irrelevant.  On `{a: 5}` the
permuted lists `["a", "a.b"]` and `["a.b", "a"]` produce `{a: {}}` and
`{a: 5}` respectively: when a path is processed after a prefix of it, the
spread of the recursive result overwrites the earlier assignment, and
vice versa. -/
theorem c6_counterexample_order_dependent :
    List.Perm ["a", "a.b"] ["a.b", "a"] ∧
    filterObjectS (.vobj [("a", .vnum 5)]) ["a", "a.b"] = .ok (.vobj [("a", .vobj [])]) ∧
    filterObjectS (.vobj [("a", .vnum 5)]) ["a.b", "a"] = .ok (.vobj [("a", .vnum 5)]) ∧
    (Except.ok (JSVal.vobj [("a", .vobj [])]) : Except Unit JSVal) ≠
      .ok (.vobj [("a", .vnum 5)]) := by
  refine ⟨by decide, rfl, rfl, ?_⟩
  intro h
  simp at h

/-- C6 amended: when no two supplied paths share the same first dotted
segment, the order of the path list is irrelevant up to field order:
permuting the paths yields either the identical outcome (including the
case of an identical `TypeError`) or two successful projections whose
field lists are permutations of each other. -/
theorem c6_perm_of_distinct_heads (obj : JSVal) (l₁ l₂ : List String)
    (hperm : List.Perm l₁ l₂) (hnd : (l₁.map pathHead).Nodup) :
    filterObjectS obj l₁ = filterObjectS obj l₂ ∨
    ∃ f₁ f₂, filterObjectS obj l₁ = .ok (.vobj f₁) ∧ filterObjectS obj l₂ = .ok (.vobj f₂) ∧
      List.Perm f₁ f₂ := by
  by_cases ho : typeofIsObject obj
  case neg =>
    left
    simp only [Bool.not_eq_true] at ho
    simp [filterObjectS, filterObject, ho]
  case pos =>
    have hperm' : List.Perm (l₁.map splitPath) (l₂.map splitPath) := hperm.map splitPath
    have hnd₁ : ((l₁.map splitPath).map Prod.fst).Nodup := by
      rw [map_fst_splitPath]; exact hnd
    have hnd₂ : ((l₂.map splitPath).map Prod.fst).Nodup := (hperm'.map Prod.fst).nodup hnd₁
    have h1 : filterFold obj [] (l₁.map splitPath) =
        appendEntries [] (pathEntries obj (l₁.map splitPath)) :=
      filterFold_entries obj _ [] hnd₁ (by simp)
    have h2 : filterFold obj [] (l₂.map splitPath) =
        appendEntries [] (pathEntries obj (l₂.map splitPath)) :=
      filterFold_entries obj _ [] hnd₂ (by simp)
    have hep : ExceptPerm (pathEntries obj (l₁.map splitPath)) (pathEntries obj (l₂.map splitPath)) :=
      pathEntries_perm obj hperm'
    cases ha : pathEntries obj (l₁.map splitPath) with
    | error e1 =>
      cases hb : pathEntries obj (l₂.map splitPath) with
      | error e2 =>
        left
        rw [ha] at h1; rw [hb] at h2
        simp only [appendEntries] at h1 h2
        cases e1; cases e2
        simp [filterObjectS, filterObject, ho, h1, h2]
      | ok b => rw [ha, hb] at hep; exact False.elim hep
    | ok a =>
      cases hb : pathEntries obj (l₂.map splitPath) with
      | error e2 => rw [ha, hb] at hep; exact False.elim hep
      | ok b =>
        right
        rw [ha] at h1; rw [hb] at h2
        simp only [appendEntries, List.nil_append] at h1 h2
        refine ⟨a, b, ?_, ?_, ?_⟩
        · simp [filterObjectS, filterObject, ho, h1]
        · simp [filterObjectS, filterObject, ho, h2]
        · rw [ha, hb] at hep; exact hep

theorem c6_perm_of_distinct_heads_witness :
    filterObjectS (.vobj [("a", .vobj [("b", .vnum 1), ("c", .vnum 2)]), ("d", .vnum 3)]) ["a.b", "d"] =
      filterObjectS (.vobj [("a", .vobj [("b", .vnum 1), ("c", .vnum 2)]), ("d", .vnum 3)]) ["d", "a.b"] ∨
    ∃ f₁ f₂,
      filterObjectS (.vobj [("a", .vobj [("b", .vnum 1), ("c", .vnum 2)]), ("d", .vnum 3)]) ["a.b", "d"] =
        .ok (.vobj f₁) ∧
      filterObjectS (.vobj [("a", .vobj [("b", .vnum 1), ("c", .vnum 2)]), ("d", .vnum 3)]) ["d", "a.b"] =
        .ok (.vobj f₂) ∧
      List.Perm f₁ f₂ :=
  c6_perm_of_distinct_heads
    (.vobj [("a", .vobj [("b", .vnum 1), ("c", .vnum 2)]), ("d", .vnum 3)])
    ["a.b", "d"] ["d", "a.b"] (by decide) (by decide)

/-- C7 counterexample: the arguments entry emitted by the wrapper is
tagged `"(A.m) arguements"` (the source's spelling), which differs from
the claimed tag `"(A.m) arguments"`. -/
theorem c7_counterexample_tag_spelling :
    (dloggerLog false "A.m" [] .vnull (fun _ _ => .ret .vundefined) []).trace.map Prod.fst =
      ["(A.m) arguements"] ∧
    ("(A.m) arguements" : String) ≠ "(A.m) arguments" :=
  ⟨rfl, by decide⟩

/-- C7 amended: every entry emitted by the `dlogger.ts` wrapper carries
one of exactly three tags: `"(<source>) arguements"` (sic — the source
misspells the word), `"(<source>) return"`, or
`"(<source>) error message"`. -/
theorem c7_dlogger_entry_tags (appendFails : Bool) (source : String) (keys : List String)
    (thisV : JSVal) (f : JSVal → List JSVal → CallResult) (args : List JSVal) (e : LogEntry)
    (he : e ∈ (dloggerLog appendFails source keys thisV f args).trace ++
          (dloggerLog appendFails source keys thisV f args).deferred) :
    e.1 = tagArgs source ∨ e.1 = tagRet source ∨ e.1 = tagErr source := by
  cases hp : argsPayload keys args with
  | error e0 => simp [dloggerLog, hp] at he
  | ok payload =>
    cases appendFails with
    | true => simp [dloggerLog, hp, dloggerEmit] at he
    | false =>
      cases hf : f thisV args with
      | ret v =>
        simp [dloggerLog, hp, hf, dloggerEmit] at he
        rcases he with he | he <;> simp [he]
      | thrown m =>
        simp [dloggerLog, hp, hf, dloggerEmit] at he
        rcases he with he | he <;> simp [he]
      | promiseOk v =>
        simp [dloggerLog, hp, hf, dloggerEmit] at he
        rcases he with he | he <;> simp [he]
      | promiseErr m =>
        simp [dloggerLog, hp, hf, dloggerEmit] at he
        rcases he with he | he <;> simp [he]

theorem c7_dlogger_entry_tags_witness :
    ((tagArgs "A.m", JSVal.varr []) : LogEntry).1 = tagArgs "A.m" ∨
    ((tagArgs "A.m", JSVal.varr []) : LogEntry).1 = tagRet "A.m" ∨
    ((tagArgs "A.m", JSVal.varr []) : LogEntry).1 = tagErr "A.m" :=
  c7_dlogger_entry_tags false "A.m" [] .vnull (fun _ _ => .ret .vundefined) []
    (tagArgs "A.m", .varr []) (List.Mem.head _)

/-- C8 counterexample: in the `dlogger.ts` variant a failing synchronous
append makes the wrapped call fail even though the original callable
succeeds: `Logger.log` throws out of the wrapper before the original is
even invoked. -/
theorem c8_counterexample_dlogger_sink_failure_propagates :
    ((fun (_ : JSVal) (_ : List JSVal) => CallResult.ret (.vnum 5)) .vnull [] =
      CallResult.ret (.vnum 5)) ∧
    (dloggerLog true "A.m" [] .vnull (fun _ _ => .ret (.vnum 5)) []).result =
      .error .sinkCrash ∧
    (Except.error WrapErr.sinkCrash : Except WrapErr CallResult) ≠ .ok (.ret (.vnum 5)) :=
  ⟨rfl, rfl, fun h => Except.noConfusion h⟩

/-- C8 amended: in the `index.ts` variant the sink is fire-and-forget,
so whether or not the append fails, the wrapped call delivers exactly the
original callable's outcome to the caller. -/
theorem c8_index_sink_failure_not_propagated (appendFails : Bool) (source : String)
    (keys : List String) (thisV : JSVal) (f : JSVal → List JSVal → CallResult)
    (args : List JSVal) :
    (indexLog appendFails source keys thisV f args).result = .ok (f thisV args) := by
  cases hf : f thisV args <;> simp [indexLog, hf]

/-- C9: every top-level key of a successful projection result is the
first dotted segment of one of the supplied paths; nothing else from the
input object appears. -/
theorem c9_projection_keys_are_requested (obj : JSVal) (paths : List String) (r : JSVal)
    (h : filterObjectS obj paths = .ok r) :
    ∀ k ∈ topKeys r, k ∈ paths.map pathHead := by
  intro k hk
  by_cases ho : typeofIsObject obj
  · simp only [filterObjectS, filterObject, ho, if_true] at h
    cases hff : filterFold obj [] (paths.map splitPath) with
    | error e => rw [hff] at h; exact absurd h (by simp)
    | ok fields =>
      rw [hff] at h
      simp only [Except.ok.injEq] at h
      subst h
      have hmem := filterFold_keys obj (paths.map splitPath) [] fields hff k
        (by simpa [topKeys] using hk)
      rcases hmem with h1 | h1
      · simp at h1
      · rw [map_fst_splitPath] at h1; exact h1
  · simp only [Bool.not_eq_true] at ho
    simp only [filterObjectS, filterObject, ho, Bool.false_eq_true, if_false,
      Except.ok.injEq] at h
    subst h
    cases obj <;> simp_all [topKeys, typeofIsObject]

theorem c9_projection_keys_witness : "a" ∈ (["a"].map pathHead) :=
  c9_projection_keys_are_requested (.vobj [("a", .vnum 1)]) ["a"]
    (.vobj [("a", .vnum 1)]) rfl "a" (by decide)

/-- C10: for every object-typed input — including `null` — projecting
through the empty path list returns the empty object `{}` (the initial
accumulator of the reduce), never the input itself. -/
theorem c10_empty_path_list_projects_to_empty (obj : JSVal)
    (h : typeofIsObject obj = true) :
    filterObjectS obj [] = .ok (.vobj []) := by
  simp [filterObjectS, filterObject, filterFold, h]

theorem c10_empty_path_list_witness : filterObjectS .vnull [] = .ok (.vobj []) :=
  c10_empty_path_list_projects_to_empty .vnull rfl
